import Mathlib

/-!
Formal model of the YimMenu/Translations maintenance script `util.mjs`
(the current variant: merge with a configurable pattern list, validate
with untranslated warnings, new-translation diffing, CLI dispatch).

Strings are modelled by Lean `String`; flat JSON objects (translation
mappings) by association lists `List (String × String)` in insertion
order, which is the iteration order of a JavaScript `for in` loop over
an object whose keys are non-numeric strings.
-/

namespace Translations

/-! ## PatternCounter: JavaScript `str.split(sub).length - 1` -/

/-- Scanner for JavaScript `String.prototype.split` with a nonempty
separator, given as head `p` and tail `ps`.  `skip` counts characters
still to be consumed by the most recent separator match; `acc` is the
piece accumulated since the last match. -/
def splitGo (p : Char) (ps : List Char) : List Char → Nat → List Char → List (List Char)
  | [], _, acc => [acc]
  | _ :: rest, Nat.succ k, acc => splitGo p ps rest k acc
  | c :: rest, 0, acc =>
    if c == p && List.isPrefixOf ps rest then
      acc :: splitGo p ps rest ps.length []
    else
      splitGo p ps rest 0 (acc ++ [c])

/-- Same scanner as `splitGo`, counting separator matches instead of
collecting the pieces. -/
def countOccurGo (p : Char) (ps : List Char) : List Char → Nat → Nat
  | [], _ => 0
  | _ :: rest, Nat.succ k => countOccurGo p ps rest k
  | c :: rest, 0 =>
    if c == p && List.isPrefixOf ps rest then
      countOccurGo p ps rest ps.length + 1
    else
      countOccurGo p ps rest 0

/-- JavaScript `str.split(sub)`: with an empty separator the string is
split into its individual characters (so the empty string yields the
empty array); with a nonempty separator it is cut at every
leftmost-first non-overlapping occurrence. -/
def jsSplit (str sub : String) : List String :=
  match sub.data with
  | [] => str.data.map (fun c => String.mk [c])
  | p :: ps => (splitGo p ps str.data 0 []).map String.mk

/-- `const count = (str, sub) => str.split(sub).length - 1`.  The result
is an integer, as in JavaScript, because the subtraction can go below
zero. -/
def count (str sub : String) : Int := ((jsSplit str sub).length : Int) - 1

/-- `patternCheck(source, translation, pattern)`: the occurrence counts
of `pat` in the source value and in the translated value. -/
def patternCheck (source translation pat : String) : Int × Int :=
  (count source pat, count translation pat)

/-- Modelled from the spec: whether the literal `pat` occurs anywhere in
`s` (as a contiguous substring). -/
def occursAnywhere (pat : List Char) : List Char → Bool
  | [] => pat.isEmpty
  | c :: rest => List.isPrefixOf pat (c :: rest) || occursAnywhere pat rest

/-- Modelled from the spec: the number of leftmost-first non-overlapping
occurrences of the literal `sub` in `str`.  For the empty pattern every
boundary of the string counts as one occurrence. -/
def countOccur (str sub : String) : Nat :=
  match sub.data with
  | [] => str.data.length + 1
  | p :: ps => countOccurGo p ps str.data 0

theorem splitGo_length (p : Char) (ps : List Char) :
    ∀ (s : List Char) (k : Nat) (acc : List Char),
      (splitGo p ps s k acc).length = countOccurGo p ps s k + 1 := by
  intro s
  induction s with
  | nil => intro k acc; cases k <;> simp [splitGo, countOccurGo]
  | cons c rest ih =>
    intro k acc
    cases k with
    | zero =>
      by_cases h : (c == p && List.isPrefixOf ps rest) = true
      · simp [splitGo, countOccurGo, h, ih]
      · simp [splitGo, countOccurGo, h, ih]
    | succ k => simp [splitGo, countOccurGo, ih]

theorem countOccurGo_of_not_occurs (p : Char) (ps : List Char) :
    ∀ s : List Char, occursAnywhere (p :: ps) s = false → countOccurGo p ps s 0 = 0 := by
  intro s
  induction s with
  | nil => intro _; simp [countOccurGo]
  | cons c rest ih =>
    intro h
    simp only [occursAnywhere, Bool.or_eq_false_iff] at h
    have hcond : (c == p && List.isPrefixOf ps rest) = false := by
      have := h.1
      simp only [List.isPrefixOf] at this
      cases hpc : p == c with
      | false =>
        have : (c == p) = false := by
          cases hcp : c == p with
          | false => rfl
          | true => exact absurd (BEq.symm hcp) (by simp [hpc])
        simp [this]
      | true =>
        have hcp : (c == p) = true := BEq.symm hpc
        have hps : List.isPrefixOf ps rest = false := by simpa [hpc] using this
        simp [hcp, hps]
    simp [countOccurGo, hcond, ih h.2]

example : count "abc" "b" = 1 := by decide
example : count "" "" = -1 := by decide
example : count "a" "" = 0 := by decide

/-! ## Translation mappings (flat JSON objects, in insertion order) -/

/-- A flat string-to-string JSON object, keys in insertion order. -/
abbrev Mapping := List (String × String)

/-- The key list of a mapping, in order (`Object.keys`). -/
def keysOf (m : Mapping) : List String := m.map Prod.fst

/-- JavaScript `key in obj` / `obj.hasOwnProperty(key)`. -/
def hasKey (m : Mapping) (k : String) : Bool := (keysOf m).contains k

/-- JavaScript `obj[key]` for a key known to be present (the default is
never reached at the guarded call sites). -/
def objGet (m : Mapping) (k : String) : String := (m.lookup k).getD ""

/-- JavaScript `obj[key] = v`: overwrite in place when the key exists
(keeping its position), append otherwise. -/
def setKey (m : Mapping) (k v : String) : Mapping :=
  if hasKey m k then m.map (fun kv => if kv.1 = k then (k, v) else kv)
  else m ++ [(k, v)]

/-- `objHasAllKeys(x, y)`: same number of keys and every key of `x` is a
key of `y`. -/
def objHasAllKeys (x y : Mapping) : Bool :=
  (keysOf x).length == (keysOf y).length && (keysOf x).all (fun z => hasKey y z)

/-- `const patterns = ["{}", "%"]` (braces written escaped). -/
def patterns : List String := ["\x7b\x7d", "%"]

/-- The exact issue string pushed on a placeholder-count mismatch. -/
def patternError (file key pat : String) (s t : Int) : String :=
  file ++ "[" ++ key ++ "]: incorrect number of `" ++ pat ++ "` found (" ++
    toString s ++ ":" ++ toString t ++ ")"

/-- The exact warning string pushed for a suspected untranslated value. -/
def untranslatedWarning (file key : String) : String :=
  file ++ "[" ++ key ++ "]: might be untranslated"

/-- The `patterns.forEach` block shared verbatim by `mergeFunc` and
`validateFunc`: push one error per pattern whose occurrence count in the
source value differs from its count in the translated value. -/
def pushPatternErrors (d : Mapping) (file : String) (kv : String × String)
    (es : List String) : List String :=
  patterns.foldl (fun es0 pat =>
    let pc := patternCheck (objGet d kv.1) kv.2 pat
    if pc.1 != pc.2 then es0 ++ [patternError file kv.1 pat pc.1 pc.2] else es0) es

/-! ## Merger -/

/-- Outcome of `mergeFunc` on one target file: the reconciled mapping,
the errors pushed onto the report, whether the filename was recorded in
`res.changed`, and the contents written back to the target file (`none`
when the file is left untouched). -/
structure MergeResult where
  res_obj : Mapping
  errors : List String
  changed : Bool
  written : Option Mapping
  deriving Repr, DecidableEq

/-- One iteration of the `for key in translation_obj` loop of
`mergeFunc`: state is the evolving `res_obj` paired with the errors
pushed so far. -/
def mergeStep (d : Mapping) (file : String) (st : Mapping × List String)
    (kv : String × String) : Mapping × List String :=
  if hasKey st.1 kv.1 then
    (setKey st.1 kv.1 kv.2, pushPatternErrors d file kv st.2)
  else st

/-- `mergeFunc(translation)`: reconcile one target mapping `tl` (read
from file `file`) against the default-language mapping `d`. -/
def mergeFunc (d : Mapping) (file : String) (tl : Mapping) : MergeResult :=
  let st := tl.foldl (mergeStep d file) (d, [])
  let changed := !objHasAllKeys st.1 tl
  ⟨st.1, st.2, changed, if changed then some st.1 else none⟩

/-! ## Validator -/

/-- One iteration of the `for key in translation_obj` loop of
`validateFunc`: state is the (errors, warnings) pair pushed so far. -/
def validateStep (d : Mapping) (file : String) (st : List String × List String)
    (kv : String × String) : List String × List String :=
  if hasKey d kv.1 then
    (pushPatternErrors d file kv st.1,
     if objGet d kv.1 == kv.2 then st.2 ++ [untranslatedWarning file kv.1] else st.2)
  else st

/-- `validateFunc(translation)`: the (errors, warnings) produced for one
target mapping `tl` read from file `file`. -/
def validateFunc (d : Mapping) (file : String) (tl : Mapping) :
    List String × List String :=
  tl.foldl (validateStep d file) ([], [])

/-! ## TranslationDiffer and Runner -/

/-- Target filenames of a manifest: declared files minus the
default-language file, in manifest order. -/
def targetsOf (raw : List String) (dlf : String) : List String :=
  raw.filter (fun x => !(x == dlf))

/-- `newTranslations(oldTranslationFile)`.  `translations` is the
current target list, `dlf` the default-language filename, `oldExists`
whether the referenced prior manifest exists on disk, and `oldRaw` the
file list declared by that prior manifest. -/
def newTranslations (translations : List String) (dlf : String)
    (oldExists : Bool) (oldRaw : List String) : List String :=
  if !oldExists then translations
  else
    let oldTranslations := targetsOf oldRaw dlf
    let uniq := translations.filter (fun x => !(oldTranslations.contains x))
    if uniq.length == 0 then translations else uniq

/-- JavaScript truthiness of the optional CLI argument: absent and the
empty string are falsy. -/
def truthy : Option String → Bool
  | none => false
  | some s => !(s == "")

/-- Which target files the chosen command is run against, as a function
of the optional second CLI argument.  `oldExists` and `oldRaw` model the
filesystem lookup of a prior manifest by path. -/
def runTargets (translations : List String) (dlf : String)
    (oldExists : String → Bool) (oldRaw : String → List String)
    (arg : Option String) : List String :=
  if truthy arg && translations.contains (arg.getD "") then [arg.getD ""]
  else if truthy arg then
    newTranslations translations dlf (oldExists (arg.getD "")) (oldRaw (arg.getD ""))
  else translations

/-- `Object.keys(commands)`. -/
def commandNames : List String := ["merge", "validate"]

/-- JavaScript `s.toLowerCase()` restricted to the alphabet that occurs
here (ASCII). -/
def jsToLower (s : String) : String := String.mk (s.data.map Char.toLower)

/-- `process.argv[2]?.toLowerCase()` followed by the known-command
check: `some c` means command `c` is dispatched, `none` means the
process prints usage and exits 1. -/
def resolveCommand : Option String → Option String
  | none => none
  | some s =>
    let c := jsToLower s
    if commandNames.contains c then some c else none

/-- A capitalization of the (lowercase) word `w`: same length, and each
character is either the character of `w` or its uppercase form. -/
def capsOf : List Char → List Char → Bool
  | [], [] => true
  | c :: cs, w :: ws => (c == w || c == w.toUpper) && capsOf cs ws
  | _, _ => false

/-! ## Spec-side characterizations -/

/-- Modelled from the spec: the per-pattern mismatch errors for one
shared key, in pattern order. -/
def mismatchErrors (d : Mapping) (file : String) (kv : String × String) : List String :=
  (patterns.filter (fun pat => count (objGet d kv.1) pat != count kv.2 pat)).map
    (fun pat => patternError file kv.1 pat (count (objGet d kv.1) pat) (count kv.2 pat))

/-- Modelled from the spec: all mismatch errors of a target mapping, one
block per entry whose key also exists in the source, in entry order. -/
def sharedMismatchErrors (d : Mapping) (file : String) (tl : Mapping) : List String :=
  ((tl.filter (fun kv => hasKey d kv.1)).map (mismatchErrors d file)).flatten

/-- Modelled from the spec: the untranslated warnings of a target
mapping, one per entry whose key exists in the source and whose value is
character-for-character equal to the source value. -/
def untranslatedWarnings (d : Mapping) (file : String) (tl : Mapping) : List String :=
  (tl.filter (fun kv => hasKey d kv.1 && (objGet d kv.1 == kv.2))).map
    (fun kv => untranslatedWarning file kv.1)

/-- Modelled from the spec: the set difference of current target files
minus prior target files, preserving current manifest order. -/
def specDiff (translations : List String) (dlf : String) (oldRaw : List String) :
    List String :=
  translations.filter (fun x => !((targetsOf oldRaw dlf).contains x))

/-! ## Basic lemmas about the mapping model -/

@[simp] theorem keysOf_nil : keysOf [] = [] := rfl

@[simp] theorem keysOf_cons (kv : String × String) (m : Mapping) :
    keysOf (kv :: m) = kv.1 :: keysOf m := rfl

@[simp] theorem hasKey_nil (k : String) : hasKey [] k = false := rfl

theorem hasKey_cons (kv : String × String) (m : Mapping) (k : String) :
    hasKey (kv :: m) k = (k == kv.1 || hasKey m k) := by
  simp [hasKey, keysOf]

theorem hasKey_true_iff (m : Mapping) (k : String) :
    hasKey m k = true ↔ k ∈ keysOf m := by
  simp [hasKey, List.contains]

theorem hasKey_false_of_not_mem {m : Mapping} {k : String} (h : k ∉ keysOf m) :
    hasKey m k = false := by
  cases hh : hasKey m k with
  | false => rfl
  | true => exact absurd ((hasKey_true_iff m k).1 hh) h

theorem lookup_cons_of_ne {es : Mapping} {k1 v1 k : String} (h : k ≠ k1) :
    ((k1, v1) :: es).lookup k = es.lookup k := by
  rw [List.lookup_cons]
  have hb : (k == k1) = false := by simpa using h
  rw [hb]

theorem lookup_map_update_self (k v : String) :
    ∀ m : Mapping, hasKey m k = true →
      (m.map (fun kv => if kv.1 = k then (k, v) else kv)).lookup k = some v := by
  intro m
  induction m with
  | nil => intro h; simp [hasKey, keysOf] at h
  | cons kv rest ih =>
    obtain ⟨k1, v1⟩ := kv
    intro h
    by_cases hk : k1 = k
    · simp [List.map_cons, hk]
    · rw [hasKey_cons, Bool.or_eq_true] at h
      have h2 : hasKey rest k = true := by
        rcases h with h | h
        · exact absurd (eq_of_beq h).symm hk
        · exact h
      have hif : (if ((k1, v1) : String × String).1 = k then (k, v) else (k1, v1)) = (k1, v1) :=
        if_neg hk
      rw [List.map_cons, hif, lookup_cons_of_ne (Ne.symm hk)]
      exact ih h2

theorem lookup_map_update_ne (k v k' : String) (hne : k' ≠ k) :
    ∀ m : Mapping,
      (m.map (fun kv => if kv.1 = k then (k, v) else kv)).lookup k' = m.lookup k' := by
  intro m
  induction m with
  | nil => simp
  | cons kv rest ih =>
    obtain ⟨k1, v1⟩ := kv
    by_cases hk : k1 = k
    · have hne2 : k' ≠ k1 := by rw [hk]; exact hne
      have hif : (if ((k1, v1) : String × String).1 = k then (k, v) else (k1, v1)) = (k, v) :=
        if_pos hk
      rw [List.map_cons, hif, lookup_cons_of_ne hne, lookup_cons_of_ne hne2]
      exact ih
    · have hif : (if ((k1, v1) : String × String).1 = k then (k, v) else (k1, v1)) = (k1, v1) :=
        if_neg hk
      rw [List.map_cons, hif]
      by_cases hk' : k' = k1
      · subst hk'
        simp
      · rw [lookup_cons_of_ne hk', lookup_cons_of_ne hk']
        exact ih

theorem keysOf_setKey (m : Mapping) (k v : String) (h : hasKey m k = true) :
    keysOf (setKey m k v) = keysOf m := by
  unfold setKey
  rw [if_pos h]
  unfold keysOf
  rw [List.map_map]
  apply List.map_congr_left
  intro kv _
  by_cases hk : kv.1 = k <;> simp [hk]

theorem hasKey_setKey (m : Mapping) (k v k' : String) (h : hasKey m k = true) :
    hasKey (setKey m k v) k' = hasKey m k' := by
  unfold hasKey
  rw [keysOf_setKey m k v h]

theorem lookup_setKey_self (m : Mapping) (k v : String) (h : hasKey m k = true) :
    (setKey m k v).lookup k = some v := by
  unfold setKey
  rw [if_pos h]
  exact lookup_map_update_self k v m h

theorem lookup_setKey_ne (m : Mapping) (k v k' : String) (hm : hasKey m k = true)
    (hne : k' ≠ k) : (setKey m k v).lookup k' = m.lookup k' := by
  unfold setKey
  rw [if_pos hm]
  exact lookup_map_update_ne k v k' hne m

theorem pushPatternErrors_go (d : Mapping) (file : String) (kv : String × String) :
    ∀ (ps : List String) (es : List String),
      ps.foldl (fun es0 pat =>
        let pc := patternCheck (objGet d kv.1) kv.2 pat
        if pc.1 != pc.2 then es0 ++ [patternError file kv.1 pat pc.1 pc.2] else es0) es =
      es ++ (ps.filter (fun pat => count (objGet d kv.1) pat != count kv.2 pat)).map
        (fun pat => patternError file kv.1 pat (count (objGet d kv.1) pat) (count kv.2 pat)) := by
  intro ps
  induction ps with
  | nil => intro es; simp
  | cons p rest ih =>
    intro es
    rw [List.foldl_cons, ih]
    by_cases h : count (objGet d kv.1) p = count kv.2 p <;>
      simp [patternCheck, h, List.filter_cons]

theorem pushPatternErrors_eq (d : Mapping) (file : String) (kv : String × String)
    (es : List String) :
    pushPatternErrors d file kv es = es ++ mismatchErrors d file kv := by
  unfold pushPatternErrors mismatchErrors
  exact pushPatternErrors_go d file kv patterns es

/-! ## Merge loop lemmas -/

theorem mergeFold_keys (d : Mapping) (file : String) :
    ∀ (tl : Mapping) (st : Mapping × List String),
      keysOf (tl.foldl (mergeStep d file) st).1 = keysOf st.1 := by
  intro tl
  induction tl with
  | nil => intro st; rfl
  | cons kv rest ih =>
    intro st
    rw [List.foldl_cons, ih]
    unfold mergeStep
    by_cases h : hasKey st.1 kv.1 = true
    · rw [if_pos h]
      exact keysOf_setKey st.1 kv.1 kv.2 h
    · rw [if_neg h]

theorem mergeFold_errors (d : Mapping) (file : String) :
    ∀ (tl : Mapping) (st : Mapping × List String), keysOf st.1 = keysOf d →
      (tl.foldl (mergeStep d file) st).2 = st.2 ++ sharedMismatchErrors d file tl := by
  intro tl
  induction tl with
  | nil => intro st _; simp [sharedMismatchErrors]
  | cons kv rest ih =>
    intro st h
    rw [List.foldl_cons]
    have hk : hasKey st.1 kv.1 = hasKey d kv.1 := by unfold hasKey; rw [h]
    by_cases hd : hasKey d kv.1 = true
    · have hst : hasKey st.1 kv.1 = true := by rw [hk]; exact hd
      have hkeys2 : keysOf (mergeStep d file st kv).1 = keysOf d := by
        unfold mergeStep
        rw [if_pos hst]
        calc keysOf (setKey st.1 kv.1 kv.2) = keysOf st.1 := keysOf_setKey _ _ _ hst
          _ = keysOf d := h
      rw [ih _ hkeys2]
      unfold mergeStep
      rw [if_pos hst]
      simp only [pushPatternErrors_eq]
      simp [sharedMismatchErrors, List.filter_cons, hd, List.append_assoc]
    · have hst : ¬hasKey st.1 kv.1 = true := by rw [hk]; exact hd
      have hstep : mergeStep d file st kv = st := by
        unfold mergeStep; rw [if_neg hst]
      rw [hstep, ih _ h]
      simp [sharedMismatchErrors, List.filter_cons, hd]

theorem mergeFold_lookup (d : Mapping) (file : String) :
    ∀ (tl : Mapping) (st : Mapping × List String), (keysOf tl).Nodup → ∀ k : String,
      (tl.foldl (mergeStep d file) st).1.lookup k =
        if hasKey tl k && hasKey st.1 k then tl.lookup k else st.1.lookup k := by
  intro tl
  induction tl with
  | nil => intro st _ k; simp
  | cons kv rest ih =>
    intro st hnd k
    obtain ⟨k1, v1⟩ := kv
    simp only [keysOf_cons, List.nodup_cons] at hnd
    have hnd1 : k1 ∉ keysOf rest := hnd.1
    have hnd2 : (keysOf rest).Nodup := hnd.2
    rw [List.foldl_cons]
    by_cases hst : hasKey st.1 k1 = true
    · have hstep : mergeStep d file st (k1, v1) =
          (setKey st.1 k1 v1, pushPatternErrors d file (k1, v1) st.2) := by
        unfold mergeStep; rw [if_pos hst]
      rw [hstep, ih _ hnd2 k]
      by_cases hkk : k = k1
      · subst hkk
        have hrest : hasKey rest k = false := hasKey_false_of_not_mem hnd1
        simp [hrest, hasKey_cons, hst, lookup_setKey_self st.1 k v1 hst]
      · have h1 : hasKey (setKey st.1 k1 v1) k = hasKey st.1 k :=
          hasKey_setKey st.1 k1 v1 k hst
        have h2 : (setKey st.1 k1 v1).lookup k = st.1.lookup k :=
          lookup_setKey_ne st.1 k1 v1 k hst hkk
        have h3 : ((k1, v1) :: rest).lookup k = rest.lookup k := lookup_cons_of_ne hkk
        have h4 : hasKey ((k1, v1) :: rest) k = hasKey rest k := by
          rw [hasKey_cons]
          have : (k == k1) = false := by simpa using hkk
          simp [this]
        rw [h1, h2, h3, h4]
    · have hstep : mergeStep d file st (k1, v1) = st := by
        unfold mergeStep; rw [if_neg hst]
      rw [hstep, ih _ hnd2 k]
      by_cases hkk : k = k1
      · subst hkk
        have hrest : hasKey rest k = false := hasKey_false_of_not_mem hnd1
        have hstf : hasKey st.1 k = false := by
          cases hh : hasKey st.1 k with
          | false => rfl
          | true => exact absurd hh hst
        simp [hrest, hstf]
      · have h3 : ((k1, v1) :: rest).lookup k = rest.lookup k := lookup_cons_of_ne hkk
        have h4 : hasKey ((k1, v1) :: rest) k = hasKey rest k := by
          rw [hasKey_cons]
          have : (k == k1) = false := by simpa using hkk
          simp [this]
        rw [h3, h4]

/-! ## Validate loop lemma -/

theorem validateFold (d : Mapping) (file : String) :
    ∀ (tl : Mapping) (st : List String × List String),
      tl.foldl (validateStep d file) st =
        (st.1 ++ sharedMismatchErrors d file tl, st.2 ++ untranslatedWarnings d file tl) := by
  intro tl
  induction tl with
  | nil => intro st; simp [sharedMismatchErrors, untranslatedWarnings]
  | cons kv rest ih =>
    intro st
    rw [List.foldl_cons, ih]
    unfold validateStep
    by_cases hd : hasKey d kv.1 = true
    · rw [if_pos hd]
      by_cases hv : (objGet d kv.1 == kv.2) = true
      · rw [if_pos hv]
        simp only [pushPatternErrors_eq]
        simp [sharedMismatchErrors, untranslatedWarnings, List.filter_cons, hd, hv,
          List.append_assoc]
      · rw [if_neg hv]
        simp only [pushPatternErrors_eq]
        simp [sharedMismatchErrors, untranslatedWarnings, List.filter_cons, hd, hv,
          List.append_assoc]
    · rw [if_neg hd]
      have hd2 : hasKey d kv.1 = false := by
        cases hh : hasKey d kv.1 with
        | false => rfl
        | true => exact absurd hh hd
      simp [sharedMismatchErrors, untranslatedWarnings, List.filter_cons, hd2]

/-! ## Key-set comparison lemmas -/

theorem objHasAllKeys_iff_mem (x y : Mapping) (hx : (keysOf x).Nodup)
    (hy : (keysOf y).Nodup) :
    objHasAllKeys x y = true ↔ ∀ k, k ∈ keysOf x ↔ k ∈ keysOf y := by
  unfold objHasAllKeys
  rw [Bool.and_eq_true, beq_iff_eq, List.all_eq_true]
  constructor
  · rintro ⟨hlen, hall⟩ k
    have hsub : keysOf x ⊆ keysOf y := by
      intro a ha
      exact (hasKey_true_iff y a).1 (hall a ha)
    have hsp := List.subperm_of_subset hx hsub
    exact (hsp.perm_of_length_le (le_of_eq hlen.symm)).mem_iff
  · intro hmem
    have hxy : keysOf x ⊆ keysOf y := fun a ha => (hmem a).1 ha
    have hyx : keysOf y ⊆ keysOf x := fun a ha => (hmem a).2 ha
    have hperm := (List.subperm_of_subset hx hxy).antisymm (List.subperm_of_subset hy hyx)
    exact ⟨hperm.length_eq, fun a ha => (hasKey_true_iff y a).2 (hxy ha)⟩

theorem mergeFunc_res_obj_eq (d : Mapping) (file : String) (tl : Mapping) :
    (mergeFunc d file tl).res_obj = (tl.foldl (mergeStep d file) (d, [])).1 := rfl

theorem mergeFunc_errors_eq (d : Mapping) (file : String) (tl : Mapping) :
    (mergeFunc d file tl).errors = (tl.foldl (mergeStep d file) (d, [])).2 := rfl

theorem mergeFunc_changed_eq (d : Mapping) (file : String) (tl : Mapping) :
    (mergeFunc d file tl).changed =
      !objHasAllKeys (tl.foldl (mergeStep d file) (d, [])).1 tl := rfl

theorem mergeFunc_written_eq (d : Mapping) (file : String) (tl : Mapping) :
    (mergeFunc d file tl).written =
      (if (mergeFunc d file tl).changed then some (mergeFunc d file tl).res_obj
       else none) := rfl

/-! ## Counting lemmas and the PatternCounter claims -/

theorem data_ne_nil_of_ne_empty {s : String} (h : s ≠ "") : s.data ≠ [] := by
  intro hh
  exact h (String.ext (hh.trans rfl))

theorem count_eq_countOccurGo {sub : String} {p : Char} {ps : List Char}
    (hps : sub.data = p :: ps) (str : String) :
    count str sub = (countOccurGo p ps str.data 0 : Int) := by
  have hsplit : jsSplit str sub = (splitGo p ps str.data 0 []).map String.mk := by
    unfold jsSplit
    rw [hps]
  unfold count
  rw [hsplit, List.length_map, splitGo_length]
  push_cast
  ring

theorem countOccur_eq {sub : String} {p : Char} {ps : List Char}
    (hps : sub.data = p :: ps) (str : String) :
    countOccur str sub = countOccurGo p ps str.data 0 := by
  unfold countOccur
  rw [hps]

theorem jsSplit_empty_sub (str : String) :
    jsSplit str "" = str.data.map (fun c => String.mk [c]) := rfl

/-- C3 is refuted at empty text and empty pattern: the code returns
`-1` there (JavaScript `"".split("")` is the empty array), which is no
number of occurrences at all. -/
theorem count_empty_empty_counterexample :
    count "" "" = -1 ∧ count "" "" ≠ (countOccur "" "" : Int) := by decide

/-- C3 (amended): for every text and every NONEMPTY pattern,
`count text pattern` equals the number of leftmost non-overlapping
occurrences of the literal pattern in the text, equals the number of
split pieces minus one, and equals 0 whenever the pattern does not occur
in the text.  (The original claim fails for the empty pattern: on empty
text `count` returns -1.) -/
theorem count_counts_occurrences (str sub : String) (h : sub ≠ "") :
    count str sub = (countOccur str sub : Int) ∧
    count str sub = ((jsSplit str sub).length : Int) - 1 ∧
    (occursAnywhere sub.data str.data = false → count str sub = 0) := by
  have hdata := data_ne_nil_of_ne_empty h
  rcases hps : sub.data with _ | ⟨p, ps⟩
  · exact absurd hps hdata
  · refine ⟨?_, rfl, ?_⟩
    · rw [count_eq_countOccurGo hps, countOccur_eq hps]
    · intro hocc
      rw [count_eq_countOccurGo hps, countOccurGo_of_not_occurs p ps str.data hocc]
      rfl

/-- Witness for the amended C3 at text `a{}b{}c` and pattern the brace
pair, where the count is 2. -/
theorem count_counts_occurrences_witness :
    ("\x7b\x7d" : String) ≠ "" ∧
      (count "a\x7b\x7db\x7b\x7dc" "\x7b\x7d" =
        (countOccur "a\x7b\x7db\x7b\x7dc" "\x7b\x7d" : Int) ∧
       count "a\x7b\x7db\x7b\x7dc" "\x7b\x7d" =
         ((jsSplit "a\x7b\x7db\x7b\x7dc" "\x7b\x7d").length : Int) - 1 ∧
       (occursAnywhere ("\x7b\x7d" : String).data ("a\x7b\x7db\x7b\x7dc" : String).data = false →
         count "a\x7b\x7db\x7b\x7dc" "\x7b\x7d" = 0)) :=
  ⟨by decide, count_counts_occurrences "a\x7b\x7db\x7b\x7dc" "\x7b\x7d" (by decide)⟩

/-- C9 counterexample: at empty text and empty pattern the code returns
a negative number. -/
theorem count_negative_counterexample : count "" "" < 0 := by decide

/-- C9 (amended): `count text pattern` is greater than or equal to 0 for
every text and pattern except when text and pattern are both empty
(where it is -1). -/
theorem count_nonneg (str sub : String) (h : ¬(str = "" ∧ sub = "")) :
    0 ≤ count str sub := by
  by_cases hs : sub = ""
  · have hstr : str ≠ "" := fun he => h ⟨he, hs⟩
    have hd := data_ne_nil_of_ne_empty hstr
    subst hs
    rw [show count str "" = ((jsSplit str "").length : Int) - 1 from rfl,
      jsSplit_empty_sub, List.length_map]
    have hlen : str.data.length ≠ 0 := by
      intro hh
      exact hd (List.length_eq_zero.1 hh)
    omega
  · have hdata := data_ne_nil_of_ne_empty hs
    rcases hps : sub.data with _ | ⟨p, ps⟩
    · exact absurd hps hdata
    · rw [count_eq_countOccurGo hps]
      omega

/-- Witness for the amended C9 at text `abc` and the brace-pair pattern,
which does not occur, so the count is 0. -/
theorem count_nonneg_witness :
    ¬(("abc" : String) = "" ∧ ("\x7b\x7d" : String) = "") ∧
      0 ≤ count "abc" "\x7b\x7d" :=
  ⟨by decide, count_nonneg "abc" "\x7b\x7d" (by decide)⟩

/-! ## Merger claims -/

/-- C1: the reconciled mapping produced by merge has exactly the source
mapping's key list (set and order); every key shared by target and
source carries the target's value, every key present only in the source
carries the source's own value, and every key present only in the target
is dropped. -/
theorem merge_source_key_authority (d tl : Mapping) (file : String)
    (hnd : (keysOf tl).Nodup) :
    keysOf (mergeFunc d file tl).res_obj = keysOf d ∧
    (∀ k, hasKey d k = true → hasKey tl k = true →
      (mergeFunc d file tl).res_obj.lookup k = tl.lookup k) ∧
    (∀ k, hasKey d k = true → hasKey tl k = false →
      (mergeFunc d file tl).res_obj.lookup k = d.lookup k) ∧
    (∀ k, hasKey d k = false → hasKey (mergeFunc d file tl).res_obj k = false) := by
  have hkeys : keysOf (mergeFunc d file tl).res_obj = keysOf d :=
    mergeFold_keys d file tl (d, [])
  have hlook : ∀ k, (mergeFunc d file tl).res_obj.lookup k =
      if hasKey tl k && hasKey d k then tl.lookup k else d.lookup k :=
    fun k => mergeFold_lookup d file tl (d, []) hnd k
  refine ⟨hkeys, ?_, ?_, ?_⟩
  · intro k hd1 ht1
    rw [hlook k, ht1, hd1]
    simp
  · intro k hd1 ht0
    rw [hlook k, ht0]
    simp
  · intro k hd0
    unfold hasKey
    rw [hkeys]
    exact hd0

/-- Witness for C1 at source a=1, b=2 and target a=x, c=y: the shared
key a keeps the target's value. -/
theorem merge_source_key_authority_witness :
    (mergeFunc [("a", "1"), ("b", "2")] "fr.json" [("a", "x"), ("c", "y")]).res_obj.lookup "a" =
      ([("a", "x"), ("c", "y")] : Mapping).lookup "a" :=
  (merge_source_key_authority [("a", "1"), ("b", "2")] [("a", "x"), ("c", "y")] "fr.json"
    (by decide)).2.1 "a" (by decide) (by decide)

/-- C2: merge's changed flag is true iff the reconciled mapping's key
set differs from the original target mapping's key set, and the target
file is rewritten (with the reconciled mapping) exactly when changed is
true; otherwise the file is untouched. -/
theorem merge_changed_iff_keyset (d tl : Mapping) (file : String)
    (hd : (keysOf d).Nodup) (ht : (keysOf tl).Nodup) :
    ((mergeFunc d file tl).changed = true ↔
      ¬∀ k, (k ∈ keysOf (mergeFunc d file tl).res_obj ↔ k ∈ keysOf tl)) ∧
    ((mergeFunc d file tl).written.isSome = (mergeFunc d file tl).changed) ∧
    ((mergeFunc d file tl).written =
      (if (mergeFunc d file tl).changed then some (mergeFunc d file tl).res_obj
       else none)) := by
  have hres : keysOf (mergeFunc d file tl).res_obj = keysOf d :=
    mergeFold_keys d file tl (d, [])
  have hndres : (keysOf (mergeFunc d file tl).res_obj).Nodup := by
    rw [hres]; exact hd
  have hiff := objHasAllKeys_iff_mem (mergeFunc d file tl).res_obj tl hndres ht
  refine ⟨?_, ?_, mergeFunc_written_eq d file tl⟩
  · rw [mergeFunc_changed_eq, Bool.not_eq_true']
    have hob : objHasAllKeys (tl.foldl (mergeStep d file) (d, [])).1 tl =
        objHasAllKeys (mergeFunc d file tl).res_obj tl := rfl
    rw [hob]
    constructor
    · intro hfalse hall
      rw [hiff.2 hall] at hfalse
      cases hfalse
    · intro hnall
      cases hh : objHasAllKeys (mergeFunc d file tl).res_obj tl with
      | false => rfl
      | true => exact absurd (hiff.1 hh) hnall
  · rw [mergeFunc_written_eq]
    cases hc : (mergeFunc d file tl).changed <;> simp [hc]

/-- Witness for C2 at source a=1, b=2 and target a=x, c=y: the file is
written exactly when the changed flag is set. -/
theorem merge_changed_iff_keyset_witness :
    (mergeFunc [("a", "1"), ("b", "2")] "fr.json" [("a", "x"), ("c", "y")]).written.isSome =
      (mergeFunc [("a", "1"), ("b", "2")] "fr.json" [("a", "x"), ("c", "y")]).changed :=
  (merge_changed_iff_keyset [("a", "1"), ("b", "2")] [("a", "x"), ("c", "y")] "fr.json"
    (by decide) (by decide)).2.1

/-- C6: during merge, for every key shared by target and source and for
every configured placeholder pattern, an error with the exact message
format is appended iff the pattern's occurrence counts in the source and
target values differ, and the mismatch does not block the merge: the
target's value still overwrites the reconciled value at that key. -/
theorem merge_mismatch_errors (d tl : Mapping) (file : String)
    (hnd : (keysOf tl).Nodup) :
    (mergeFunc d file tl).errors = sharedMismatchErrors d file tl ∧
    (∀ k, hasKey d k = true → hasKey tl k = true →
      (mergeFunc d file tl).res_obj.lookup k = tl.lookup k) := by
  constructor
  · rw [mergeFunc_errors_eq, mergeFold_errors d file tl (d, []) rfl]
    rfl
  · intro k hd1 ht1
    have hlook := mergeFold_lookup d file tl (d, []) hnd k
    have hlook2 : (mergeFunc d file tl).res_obj.lookup k =
        if hasKey tl k && hasKey d k then tl.lookup k else d.lookup k := hlook
    rw [hlook2, ht1, hd1]
    simp

/-- Witness for C6 at the spec's example: source value with one brace
pair, target value with none, so one mismatch error is emitted. -/
theorem merge_mismatch_errors_witness :
    (mergeFunc [("greet", "Hello \x7b\x7d")] "fr.json" [("greet", "Bonjour")]).errors =
      sharedMismatchErrors [("greet", "Hello \x7b\x7d")] "fr.json" [("greet", "Bonjour")] :=
  (merge_mismatch_errors [("greet", "Hello \x7b\x7d")] [("greet", "Bonjour")] "fr.json"
    (by decide)).1

/-- C7: merge is idempotent with respect to the key set: a target whose
key set is exactly the source's key set (values arbitrary) yields
changed == false and no file write. -/
theorem merge_idempotent_keyset (d tl : Mapping) (file : String)
    (hd : (keysOf d).Nodup) (ht : (keysOf tl).Nodup)
    (h1 : (keysOf tl).all (fun k => hasKey d k) = true)
    (h2 : (keysOf d).all (fun k => hasKey tl k) = true) :
    (mergeFunc d file tl).changed = false ∧ (mergeFunc d file tl).written = none := by
  have hres : keysOf (mergeFunc d file tl).res_obj = keysOf d :=
    mergeFold_keys d file tl (d, [])
  have hndres : (keysOf (mergeFunc d file tl).res_obj).Nodup := by
    rw [hres]; exact hd
  rw [List.all_eq_true] at h1 h2
  have hmem : ∀ k, k ∈ keysOf (mergeFunc d file tl).res_obj ↔ k ∈ keysOf tl := by
    intro k
    rw [hres]
    constructor
    · intro hk
      exact (hasKey_true_iff tl k).1 (h2 k hk)
    · intro hk
      exact (hasKey_true_iff d k).1 (h1 k hk)
  have hob : objHasAllKeys (mergeFunc d file tl).res_obj tl = true :=
    (objHasAllKeys_iff_mem (mergeFunc d file tl).res_obj tl hndres ht).2 hmem
  have hchanged : (mergeFunc d file tl).changed = false := by
    rw [mergeFunc_changed_eq]
    have hob2 : objHasAllKeys (tl.foldl (mergeStep d file) (d, [])).1 tl = true := hob
    rw [hob2]
    rfl
  refine ⟨hchanged, ?_⟩
  rw [mergeFunc_written_eq, hchanged]
  rfl

/-- Witness for C7 at source a=1 and target a=x: same key set, so no
write happens. -/
theorem merge_idempotent_keyset_witness :
    (mergeFunc [("a", "1")] "fr.json" [("a", "x")]).changed = false ∧
      (mergeFunc [("a", "1")] "fr.json" [("a", "x")]).written = none :=
  merge_idempotent_keyset [("a", "1")] [("a", "x")] "fr.json"
    (by decide) (by decide) (by decide) (by decide)

/-! ## Validator claim -/

/-- C5: validate appends the warning `<file>[<key>]: might be
untranslated` exactly for the target entries whose key also exists in
the source and whose value is character-for-character equal to the
source value; its errors come exactly from the shared keys' pattern
mismatches; keys present only in the target produce no error or warning
at all. -/
theorem validate_untranslated_warnings (d tl : Mapping) (file : String) :
    (validateFunc d file tl).2 = untranslatedWarnings d file tl ∧
    (validateFunc d file tl).1 = sharedMismatchErrors d file tl := by
  have h := validateFold d file tl ([], [])
  unfold validateFunc
  rw [h]
  constructor <;> simp

/-! ## TranslationDiffer claim -/

/-- C4: newTranslations returns all current targets when the prior
manifest file does not exist; otherwise the order-preserving set
difference of current targets minus prior targets; and the full current
target list again when that difference is empty.  The result is always
an order-preserving sublist of the current target list. -/
theorem newTranslations_diff (translations : List String) (dlf : String)
    (oldExists : Bool) (oldRaw : List String) :
    (newTranslations translations dlf oldExists oldRaw =
      (if oldExists then
        (if specDiff translations dlf oldRaw = [] then translations
         else specDiff translations dlf oldRaw)
       else translations)) ∧
    (newTranslations translations dlf oldExists oldRaw).Sublist translations := by
  have heq : newTranslations translations dlf oldExists oldRaw =
      (if oldExists then
        (if specDiff translations dlf oldRaw = [] then translations
         else specDiff translations dlf oldRaw)
       else translations) := by
    unfold newTranslations specDiff
    cases oldExists with
    | false => simp
    | true =>
      simp only [Bool.not_true, Bool.false_eq_true, if_false, if_true]
      by_cases hu : translations.filter (fun x => !((targetsOf oldRaw dlf).contains x)) = []
      · simp [hu]
      · have hlen : (translations.filter
            (fun x => !((targetsOf oldRaw dlf).contains x))).length ≠ 0 := by
          simpa [List.length_eq_zero] using hu
        simp [hu, hlen]
  refine ⟨heq, ?_⟩
  rw [heq]
  by_cases h1 : oldExists = true
  · rw [if_pos h1]
    by_cases h2 : specDiff translations dlf oldRaw = []
    · rw [if_pos h2]
    · rw [if_neg h2]
      unfold specDiff
      exact List.filter_sublist translations
  · rw [if_neg h1]

/-! ## Runner claims -/

/-- C8: the optional second CLI argument is dispatched as: a known
target filename runs the command on that file only; a present argument
that is not a known target filename is treated as the path of a prior
manifest and the command runs on the new-translations diff; an absent
argument runs the command on every target.  The hypotheses record two
facts of the deployed environment: no declared target filename is empty
and the empty path names no existing file. -/
theorem runner_arg_dispatch (translations : List String) (dlf : String)
    (oldExists : String → Bool) (oldRaw : String → List String)
    (hempty : translations.contains "" = false)
    (hfs : oldExists "" = false) :
    (∀ a, translations.contains a = true →
      runTargets translations dlf oldExists oldRaw (some a) = [a]) ∧
    (∀ a, translations.contains a = false →
      runTargets translations dlf oldExists oldRaw (some a) =
        newTranslations translations dlf (oldExists a) (oldRaw a)) ∧
    runTargets translations dlf oldExists oldRaw none = translations := by
  refine ⟨?_, ?_, ?_⟩
  · intro a ha
    have hane : ¬(a = "") := by
      intro he
      rw [he] at ha
      rw [ha] at hempty
      cases hempty
    have htr : truthy (some a) = true := by simp [truthy, hane]
    have hmem : a ∈ translations := by simpa using ha
    unfold runTargets
    simp [htr, hmem]
  · intro a ha
    by_cases hae : a = ""
    · subst hae
      have htr : truthy (some "") = false := by simp [truthy]
      unfold runTargets
      rw [htr]
      simp only [Bool.false_and, Bool.false_eq_true, if_false]
      unfold newTranslations
      rw [hfs]
      simp
    · have htr : truthy (some a) = true := by simp [truthy, hae]
      have hmem : a ∉ translations := by simpa using ha
      unfold runTargets
      simp [htr, hmem]
  · unfold runTargets
    simp [truthy]

/-- Witness for C8: a known target filename selects exactly that file. -/
theorem runner_arg_dispatch_witness :
    runTargets ["fr.json"] "en.json" (fun _ => false) (fun _ => []) (some "fr.json") =
      ["fr.json"] :=
  (runner_arg_dispatch ["fr.json"] "en.json" (fun _ => false) (fun _ => [])
    (by decide) rfl).1 "fr.json" (by decide)

theorem capsOf_map_toLower :
    ∀ sl wl : List Char, capsOf sl wl = true →
      (∀ c ∈ wl, c.toLower = c ∧ c.toUpper.toLower = c) →
      sl.map Char.toLower = wl := by
  intro sl
  induction sl with
  | nil =>
    intro wl h _
    cases wl with
    | nil => rfl
    | cons w ws => simp [capsOf] at h
  | cons c cs ih =>
    intro wl h hw
    cases wl with
    | nil => simp [capsOf] at h
    | cons w ws =>
      simp only [capsOf, Bool.and_eq_true, Bool.or_eq_true] at h
      obtain ⟨hc, hrest⟩ := h
      have hww := hw w (List.mem_cons_self w ws)
      have hws : ∀ c2 ∈ ws, c2.toLower = c2 ∧ c2.toUpper.toLower = c2 :=
        fun c2 hc2 => hw c2 (List.mem_cons_of_mem w hc2)
      have hchar : c.toLower = w := by
        rcases hc with hc | hc
        · rw [eq_of_beq hc]
          exact hww.1
        · rw [eq_of_beq hc]
          exact hww.2
      simp [List.map_cons, hchar, ih ws hrest hws]

/-- C10: the command name is lowercased before comparison against the
known command names, so every capitalization of merge or validate
dispatches the corresponding command instead of being rejected as
unknown. -/
theorem command_case_insensitive (s : String) :
    (capsOf s.data "merge".data = true → resolveCommand (some s) = some "merge") ∧
    (capsOf s.data "validate".data = true → resolveCommand (some s) = some "validate") := by
  constructor
  · intro h
    have hlow : s.data.map Char.toLower = "merge".data :=
      capsOf_map_toLower s.data "merge".data h (by decide)
    have hjs : jsToLower s = "merge" := by
      unfold jsToLower
      rw [hlow]
    have hrc : resolveCommand (some s) =
        (if commandNames.contains (jsToLower s) then some (jsToLower s) else none) := rfl
    rw [hrc, hjs]
    decide
  · intro h
    have hlow : s.data.map Char.toLower = "validate".data :=
      capsOf_map_toLower s.data "validate".data h (by decide)
    have hjs : jsToLower s = "validate" := by
      unfold jsToLower
      rw [hlow]
    have hrc : resolveCommand (some s) =
        (if commandNames.contains (jsToLower s) then some (jsToLower s) else none) := rfl
    rw [hrc, hjs]
    decide

/-- Witness for C10: the all-caps and mixed-case spellings dispatch. -/
theorem command_case_insensitive_witness :
    resolveCommand (some "MERGE") = some "merge" :=
  (command_case_insensitive "MERGE").1 (by decide)

end Translations
